import Mathlib

/-!
Verification development for the thoth-adviser resolution engine sources.

The definitions below are a shallow embedding of the Python sources:
  * `src/thoth/adviser/predictors/td.py`   (TemporalDifference predictor)
  * `src/thoth/adviser/predictors/mcts.py` (MCTS predictor)
  * `src/thoth/adviser/python/advise.py`   (Adviser.compute)
  * `src/thoth/adviser/python/pipeline/steps/prereleases.py` (CutPreReleases)
  * `src/thoth/adviser/run.py`             (subprocess_run, parent branch)

Python floats are modelled by `ℚ` plus explicit NaN/±Inf constructors where the
code distinguishes them (the reward signal).  Python dicts (which preserve
insertion order) are modelled by association lists.
-/

/-- A package tuple `(name, locked_version, index_url)`. -/
abbrev PackageTuple := String × String × String

/-- A key of the `_policy` dict.  The code only ever *inserts* full package
tuples (`self._policy.setdefault(package_tuple, ...)`), but
`TemporalDifference._do_exploitation` *reads* with the package name string
(`self._policy.get(package_tuple[0], {})`).  Python compares dict keys by
equality and a `str` never equals a 3-`tuple`, so the two key shapes must be
kept distinct in the model. -/
inductive PolicyKey
  | str (s : String)
  | tup (pt : PackageTuple)
deriving DecidableEq

/-- The policy store: insertion-ordered mapping from key to
`[reward_sum, count]` (td.py line 46: `Dict[str, List[Union[float, int]]]`). -/
abbrev Policy := List (PolicyKey × (ℚ × ℕ))

/-- Python `dict.get`: the value of the first (unique) matching key. -/
def dictGet (p : Policy) (k : PolicyKey) : Option (ℚ × ℕ) :=
  match p with
  | [] => none
  | (k', v) :: rest => if k' = k then some v else dictGet rest k

/-- The reward argument of `set_reward_signal`: a Python float that the code
inspects with `math.isnan` / `math.isinf`. -/
inductive Reward
  | nan
  | inf
  | negInf
  | fin (q : ℚ)
deriving DecidableEq

/-- `math.isnan(reward)`. -/
def Reward.isNaN : Reward → Bool
  | .nan => true
  | _ => false

/-- `math.isinf(reward)` (true for both infinities). -/
def Reward.isInf : Reward → Bool
  | .inf => true
  | .negInf => true
  | _ => false

/-- Modelled from the spec: a resolver `State` (state.py is not under src/).
`resolved` is the insertion-ordered key list of the resolved-packages dict;
`unresolved` maps each open dependency name to its candidate versions
(front = most recent). -/
structure State where
  score : ℚ
  resolved : List PackageTuple
  unresolved : List (String × List PackageTuple)
deriving DecidableEq

/-- Modelled from the spec: `State.iter_resolved_dependencies` yields the
resolved package tuples in insertion order (state.py is not under src/). -/
def State.iterResolvedDependencies (s : State) : List PackageTuple :=
  s.resolved

/-- Modelled from the spec: `State.iter_unresolved_dependencies` yields the
flattened front candidate of each open dependency name, in the order the
names were opened (state.py is not under src/). -/
def State.iterUnresolvedDependencies (s : State) : List PackageTuple :=
  s.unresolved.filterMap (fun nc => nc.2.head?)

/-- One `record = self._policy.setdefault(package_tuple, [0.0, 0]);
record[0] += reward; record[1] += 1` update (td.py lines 77-80).  A present
key is updated in place (the dict keeps its position); an absent key is
appended at the end, as Python dict insertion does. -/
def policyCredit (p : Policy) (pt : PackageTuple) (r : ℚ) : Policy :=
  if (dictGet p (.tup pt)).isSome then
    p.map (fun kv =>
      if kv.1 = PolicyKey.tup pt then (kv.1, (kv.2.1 + r, kv.2.2 + 1)) else kv)
  else p ++ [(.tup pt, (r, 1))]

/-- Crediting every resolved package of a state (the `for package_tuple in
state.iter_resolved_dependencies()` loop of td.py lines 77-80). -/
def creditAll (p : Policy) (resolved : List PackageTuple) (r : ℚ) : Policy :=
  resolved.foldl (fun p pt => policyCredit p pt r) p

/-- Python list comparison of the `[reward_sum, count]` values: lexicographic
(`reward_sum` first, `count` as tie-break). -/
def valLt (v w : ℚ × ℕ) : Prop :=
  toLex v < toLex w

instance (v w : ℚ × ℕ) : Decidable (valLt v w) :=
  inferInstanceAs (Decidable (toLex v < toLex w))

/-- The comparison `sorted(..., key=operator.itemgetter(1), reverse=True)`
sorts by: descending in the `[reward_sum, count]` value. -/
def entryGe (x y : PolicyKey × (ℚ × ℕ)) : Prop :=
  ¬ valLt x.2 y.2

instance : DecidableRel entryGe := fun x y =>
  inferInstanceAs (Decidable (¬ valLt x.2 y.2))

instance : IsTotal (PolicyKey × (ℚ × ℕ)) entryGe :=
  ⟨fun a b => by
    rcases le_total (toLex a.2) (toLex b.2) with h | h
    · exact Or.inr (not_lt.mpr h)
    · exact Or.inl (not_lt.mpr h)⟩

instance : IsTrans (PolicyKey × (ℚ × ℕ)) entryGe :=
  ⟨fun _ _ _ hab hbc =>
    not_lt.mpr (le_trans (not_lt.mp hbc) (not_lt.mp hab))⟩

/-- `sorted(self._policy.items(), key=operator.itemgetter(1), reverse=True)`
(td.py lines 87-89): a stable sort, descending lexicographically in the
`[reward_sum, count]` value.  Python's `sorted` is a stable sort and a
stable sort's output is unique, so the (stable) insertion sort models it
exactly. -/
def policySortDesc (p : Policy) : Policy :=
  p.insertionSort entryGe

/-- The periodic eviction (td.py lines 86-90, mcts.py lines 76-80): keep the
first `cap` entries of the value-descending sort. -/
def policyShrink (cap : ℕ) (p : Policy) : Policy :=
  (policySortDesc p).take cap

/-- `TemporalDifference.set_reward_signal` (td.py lines 69-90), with the
module-level `_TD_POLICY_SIZE` environment constant and
`self.context.iteration` passed explicitly.  NaN and infinite rewards are
ignored; a finite reward credits every resolved package, then the policy is
shrunk when the cap is enabled and the iteration is a multiple of 1024. -/
def tdSetRewardSignal (cap iteration : ℕ) (policy : Policy) (state : State)
    (reward : Reward) : Policy :=
  match reward with
  | .nan | .inf | .negInf => policy
  | .fin q =>
      let p := creditAll policy state.iterResolvedDependencies q
      if cap ≠ 0 ∧ iteration % 1024 = 0 then policyShrink cap p else p

/-- The mutable fields of the `MCTS` predictor that `set_reward_signal`
touches: the inherited policy store and the one-step rollout memory
`_next_state`. -/
structure MCTSInner where
  policy : Policy
  nextState : Option State
deriving DecidableEq

/-- `MCTS.set_reward_signal` (mcts.py lines 50-80).  A finite non-infinite
reward stores the state as `_next_state` and returns.  A NaN reward sets
`_next_state = None` and then — there is no `return` in that branch — falls
through to the terminal-state block, exactly like an infinite reward:
every resolved package is credited with `total_reward = state.score`,
`_next_state` is cleared, and the policy is periodically shrunk. -/
def mctsSetRewardSignal (cap iteration : ℕ) (m : MCTSInner) (state : State)
    (reward : Reward) : MCTSInner :=
  match reward with
  | .fin _ => { m with nextState := some state }
  | _ =>
      let p := creditAll m.policy state.iterResolvedDependencies state.score
      let p := if cap ≠ 0 ∧ iteration % 1024 = 0 then policyShrink cap p else p
      { policy := p, nextState := none }

/-- The `reward_records` lookup of `TemporalDifference._do_exploitation`
(td.py line 134): `self._policy.get(package_tuple[0], {}).get(package_tuple)`.
The outer `get` looks up the package *name* string; when it misses, the
default `{}` makes the inner `get` return `None`.  Were the outer `get` ever
to hit, the stored value is a `[reward_sum, count]` list, not a dict, and the
inner `.get` attribute access would raise — the arm is unreachable because the
store only ever receives full-tuple keys. -/
def rewardRecords (policy : Policy) (pt : PackageTuple) : Option (ℚ × ℕ) :=
  match dictGet policy (.str pt.1) with
  | none => none
  | some _ => none

/-- `TemporalDifference._do_exploitation` (td.py lines 127-150) given the beam
maximum `state`.  The `state.get_random_unresolved_dependency(prefer_recent=True)`
fallback is passed in as `randomChoice` (its randomness is external to the
function).  The fold keeps the running best `(average, tuple)` pair exactly as
the Python loop does. -/
def doExploitation (policy : Policy) (state : State)
    (randomChoice : PackageTuple) : PackageTuple :=
  let best := state.iterUnresolvedDependencies.foldl
    (fun (acc : Option ℚ × Option PackageTuple) pt =>
      match rewardRecords policy pt with
      | none => acc
      | some rec =>
          let average := rec.1 / (rec.2 : ℚ)
          match acc.1 with
          | none => (some average, some pt)
          | some bestAvg =>
              if bestAvg < average then (some average, some pt) else acc)
    (none, none)
  best.2.getD randomChoice

/-- `TemporalDifference._temperature_function` (td.py lines 53-67).  Returns
the new value of the slope coefficient `self._a` together with the computed
temperature.  `iteration`, `accepted` and `limit` are the corresponding
context counters. -/
def tdTemperatureFunction (a t0 : ℚ) (iteration accepted limit : ℕ) :
    ℚ × ℚ :=
  if accepted = 0 then (a, 0)
  else if t0 = 0 ∧ accepted = 1 then
    let a' := (1 / 2 : ℚ) * (iteration : ℚ) / (accepted : ℚ) * (limit : ℚ)
    (a', (limit : ℚ))
  else
    (a, max ((-(limit : ℚ) / a) * (iteration : ℚ) + (limit : ℚ)) 0)

/-- An entry of `Adviser._computed_stacks_heap`: Python pushes the tuple
`(score, (reasoning, generated_project))`.  The payload is modelled by an
identifier; tuple comparison is by score first (on equal scores Python would
compare the payloads — dicts — and raise, so runs with distinct scores are the
meaningful ones and the identifier order stands in for the tie case). -/
abbrev StackItem := ℚ × ℕ

/-- Python `<` on heap entries. -/
def ltItem (x y : StackItem) : Bool :=
  decide (x.1 < y.1) || (decide (x.1 = y.1) && decide (x.2 < y.2))

/-- Default entry for (never out-of-bounds) index reads. -/
def dStackItem : StackItem := (0, 0)

/-- `heapq._siftdown(heap, startpos, pos)` with `newitem = heap[pos]`, the
bubble-up pass.  The while loop strictly decreases `pos` (to
`(pos - 1) / 2`), so `fuel := pos` bounds it; the fuel never runs out before
the loop's own exit condition. -/
def siftdown (fuel : ℕ) (heap : List StackItem) (startpos pos : ℕ)
    (newitem : StackItem) : List StackItem :=
  match fuel with
  | 0 => heap.set pos newitem
  | fuel + 1 =>
      if startpos < pos then
        let parentpos := (pos - 1) / 2
        let parent := heap.getD parentpos dStackItem
        if ltItem newitem parent then
          siftdown fuel (heap.set pos parent) startpos parentpos newitem
        else heap.set pos newitem
      else heap.set pos newitem

/-- `heapq._siftup(heap, pos)` main loop: move the smaller child up until a
leaf position is reached, then place `newitem` by `_siftdown`.  Each pass
moves `pos` to `2*pos + 1` or `2*pos + 2 < endpos`, so `fuel := endpos`
bounds the loop and cannot run out before its exit condition. -/
def siftupLoop (fuel : ℕ) (heap : List StackItem) (endpos startpos pos : ℕ)
    (newitem : StackItem) : List StackItem :=
  match fuel with
  | 0 => siftdown pos heap startpos pos newitem
  | fuel + 1 =>
      let childpos := 2 * pos + 1
      if childpos < endpos then
        let rightpos := childpos + 1
        let childpos :=
          if rightpos < endpos ∧
              ¬ ltItem (heap.getD childpos dStackItem)
                  (heap.getD rightpos dStackItem) = true then
            rightpos
          else childpos
        siftupLoop fuel (heap.set pos (heap.getD childpos dStackItem)) endpos
          startpos childpos newitem
      else siftdown pos heap startpos pos newitem

/-- `heapq.heappush`: append, then sift the new last element up towards the
root. -/
def heappush (heap : List StackItem) (item : StackItem) : List StackItem :=
  siftdown heap.length (heap ++ [item]) 0 heap.length item

/-- `heapq.heappushpop` (only the resulting heap; the popped value is not
used by `Adviser.compute`): when the heap is non-empty and its root is
smaller than the pushed item, the root is replaced and sifted down. -/
def heappushpop (heap : List StackItem) (item : StackItem) : List StackItem :=
  match heap with
  | [] => heap
  | h0 :: _ =>
      if ltItem h0 item then
        siftupLoop heap.length (heap.set 0 item) heap.length 0 0 item
      else heap

/-- The Python exceptions `Adviser.compute` can propagate in the model. -/
inductive PyErr
  /-- `int >= NoneType` comparison (`self._visited >= self.count` with
  `count=None`). -/
  | typeError
  /-- An exception raised by the dependency-graph walk. -/
  | walkFailure
deriving DecidableEq

/-- The instance state of `Adviser` that `compute` reads and writes:
`_computed_stacks_heap` and `_visited`. -/
structure AdviserState where
  heap : List StackItem
  visited : ℕ
deriving DecidableEq

/-- One iteration body of the walk loop in `Adviser.compute` (advise.py lines
61-68): bump `_visited`, then `heappushpop` when `count` is set and the heap
already holds at least `count` entries, else `heappush`. -/
def advStep (count : Option ℕ) (st : AdviserState) (item : StackItem) :
    AdviserState :=
  let heap :=
    match count with
    | some c =>
        if st.heap.length ≥ c then heappushpop st.heap item
        else heappush st.heap item
    | none => heappush st.heap item
  ⟨heap, st.visited + 1⟩

/-- The walk loop of `Adviser.compute` (advise.py lines 61-71) over the
sequence of decision results the dependency-graph walk yields.  Returns the
final instance state and whether the loop exited through `break`.  The break
test is `self.limit is not None and self._visited >= self.count`: with
`limit` set and `count = None` the comparison against `None` raises a
`TypeError`. -/
def computeGo (count limit : Option ℕ) :
    List StackItem → AdviserState → Except PyErr (AdviserState × Bool)
  | [], st => .ok (st, false)
  | item :: rest, st =>
      let st' := advStep count st item
      match limit with
      | none => computeGo count limit rest st'
      | some _ =>
          match count with
          | none => .error .typeError
          | some c =>
              if st'.visited ≥ c then .ok (st', true)
              else computeGo count limit rest st'

/-- The key order of `sorted(self._computed_stacks_heap,
key=operator.itemgetter(0))`: ascending in the score alone. -/
def stackLe (x y : StackItem) : Prop :=
  x.1 ≤ y.1

instance : DecidableRel stackLe := fun x y =>
  inferInstanceAs (Decidable (x.1 ≤ y.1))

instance : IsTotal StackItem stackLe :=
  ⟨fun a b => le_total a.1 b.1⟩

instance : IsTrans StackItem stackLe :=
  ⟨fun _ _ _ => le_trans⟩

/-- `sorted(self._computed_stacks_heap, key=operator.itemgetter(0))`
(advise.py line 77): a stable sort, ascending in the score alone.  Python's
`sorted` is stable and a stable sort's output is unique, so the (stable)
insertion sort models it exactly. -/
def sortedStacks (heap : List StackItem) : List StackItem :=
  heap.insertionSort stackLe

/-- The outcome of an `Adviser.compute` call: the returned (sorted) stacks or
the propagated exception, together with the instance state after the
`finally` block. -/
structure ComputeOutcome where
  result : Except PyErr (List StackItem)
  post : AdviserState

/-- `Adviser.compute` (advise.py lines 56-81).  The dependency-graph walk is
modelled by the list of `(score, project)` results it yields plus an optional
exception it raises afterwards (a raise cuts the yielded list short, so the
list always holds exactly the consumed results).  The `finally` block resets
`_computed_stacks_heap` and `_visited` on every exit. -/
def adviserCompute (count limit : Option ℕ) (walkItems : List StackItem)
    (walkErr : Option PyErr) (st0 : AdviserState) : ComputeOutcome :=
  let result : Except PyErr (List StackItem) :=
    match computeGo count limit walkItems st0 with
    | .error e => .error e
    | .ok (st, true) => .ok (sortedStacks st.heap)
    | .ok (st, false) =>
        match walkErr with
        | some e => .error e
        | none => .ok (sortedStacks st.heap)
  { result := result, post := ⟨[], 0⟩ }

/-- A candidate `PackageVersion` as `CutPreReleases.run` inspects it:
`semantic_version.prerelease` and `semantic_version.build` are modelled as
the booleans "the version string carries a pre-release component" and
"... a build component" (the semver library is outside src/). -/
structure PackageVersion where
  name : String
  version : String
  index_url : String
  prerelease : Bool
  build : Bool
deriving DecidableEq

/-- `PackageVersion.to_tuple()`. -/
def PackageVersion.toTuple (pv : PackageVersion) : PackageTuple :=
  (pv.name, pv.version, pv.index_url)

/-- Modelled from the spec: `StepContext` (step_context.py is not under
src/) holds the candidate package versions of all dependency paths;
`iter_all_dependencies` yields them. -/
structure StepContext where
  dependencies : List PackageVersion
deriving DecidableEq

/-- Modelled from the spec: `step_change.remove_package_tuple` removes every
package version carrying the given tuple from the context
(step_context.py is not under src/). -/
def StepContext.removeTuple (ctx : StepContext) (t : PackageTuple) :
    StepContext :=
  ⟨ctx.dependencies.filter (fun pv => pv.toTuple ≠ t)⟩

/-- `CutPreReleases.run` (prereleases.py lines 33-56): when the project
allows pre-releases the step only toggles a debug-logging flag and returns;
otherwise every package version whose semantic version has a pre-release or
build component has its tuple removed from the step context.  The
`_DEBUG_SKIP_REPORTED` flag guards a log line only and is not modelled. -/
def cutPreReleasesRun (prereleasesAllowed : Bool) (ctx : StepContext) :
    StepContext :=
  if prereleasesAllowed then ctx
  else
    (ctx.dependencies.filter (fun pv => pv.prerelease || pv.build)).foldl
      (fun c pv => c.removeTuple pv.toTuple) ctx

/-- The `result_dict` the adviser subprocess wrapper fills (run.py). -/
structure ResultDict where
  error : Bool
  error_msg : Option String
  /-- The serialized report; only its presence matters here. -/
  report : Option ℕ
deriving DecidableEq

/-- run.py line 87: message for exit code 137. -/
def oomMsg : String :=
  "Adviser was killed as allocated memory has been exceeded (OOM)"

/-- run.py line 90: message when the liveness-probe kill file exists. -/
def cpuTimeMsg : String :=
  "Adviser was killed as allocated CPU time was exceeded"

/-- run.py line 92: fallback message. -/
def unknownErrMsg : String :=
  "Unknown error during computing advises"

/-- The parent branch of `subprocess_run` (run.py lines 80-101): after
`os.waitpid` yields `exit_code`, a non-zero code fills `result_dict` with an
error message selected by the exit-code / kill-file cascade; the child's exit
code is always the return value.  The fork, waitpid and kill-file test are
external effects passed in as values. -/
def subprocessRunParent (exitCode : ℕ) (killFileExists : Bool)
    (d : ResultDict) : ResultDict × ℕ :=
  if exitCode ≠ 0 then
    let errMsg :=
      if exitCode = 137 then oomMsg
      else if killFileExists then cpuTimeMsg
      else unknownErrMsg
    ({ error := true, error_msg := some errMsg, report := none }, exitCode)
  else (d, exitCode)

lemma dictGet_cons (k0 : PolicyKey) (v : ℚ × ℕ) (tl : Policy) (k : PolicyKey) :
    dictGet ((k0, v) :: tl) k = if k0 = k then some v else dictGet tl k := rfl

lemma dictGet_map_ne (p : Policy) (pt : PackageTuple) (g : ℚ × ℕ → ℚ × ℕ)
    (k : PolicyKey) (hk : k ≠ .tup pt) :
    dictGet (p.map (fun kv =>
        if kv.1 = PolicyKey.tup pt then (kv.1, g kv.2) else kv)) k
      = dictGet p k := by
  induction p with
  | nil => rfl
  | cons hd tl ih =>
      obtain ⟨k0, v⟩ := hd
      rw [List.map_cons]
      by_cases h0 : k0 = PolicyKey.tup pt
      · have hf : (if (k0, v).1 = PolicyKey.tup pt
            then ((k0, v).1, g (k0, v).2) else (k0, v)) = (k0, g v) :=
          if_pos h0
        have hne : ¬ (k0 = k) := fun h => hk (h ▸ h0.symm ▸ rfl)
        rw [hf, dictGet_cons, dictGet_cons, if_neg hne, if_neg hne, ih]
      · have hf : (if (k0, v).1 = PolicyKey.tup pt
            then ((k0, v).1, g (k0, v).2) else (k0, v)) = (k0, v) :=
          if_neg h0
        rw [hf, dictGet_cons, dictGet_cons, ih]

lemma dictGet_map_self (p : Policy) (pt : PackageTuple) (g : ℚ × ℕ → ℚ × ℕ)
    (v : ℚ × ℕ) (h : dictGet p (.tup pt) = some v) :
    dictGet (p.map (fun kv =>
        if kv.1 = PolicyKey.tup pt then (kv.1, g kv.2) else kv)) (.tup pt)
      = some (g v) := by
  induction p with
  | nil => simp [dictGet] at h
  | cons hd tl ih =>
      obtain ⟨k0, w⟩ := hd
      rw [List.map_cons]
      by_cases h0 : k0 = PolicyKey.tup pt
      · rw [dictGet_cons, if_pos h0] at h
        obtain rfl : w = v := Option.some.inj h
        have hf : (if (k0, w).1 = PolicyKey.tup pt
            then ((k0, w).1, g (k0, w).2) else (k0, w)) = (k0, g w) :=
          if_pos h0
        rw [hf, dictGet_cons, if_pos h0]
      · rw [dictGet_cons, if_neg h0] at h
        have hf : (if (k0, w).1 = PolicyKey.tup pt
            then ((k0, w).1, g (k0, w).2) else (k0, w)) = (k0, w) :=
          if_neg h0
        rw [hf, dictGet_cons, if_neg h0, ih h]

lemma dictGet_append_ne (p : Policy) (pt : PackageTuple) (x : ℚ × ℕ)
    (k : PolicyKey) (hk : k ≠ .tup pt) :
    dictGet (p ++ [(.tup pt, x)]) k = dictGet p k := by
  induction p with
  | nil =>
      show dictGet [(PolicyKey.tup pt, x)] k = none
      rw [dictGet_cons, if_neg (fun h => hk h.symm)]
      rfl
  | cons hd tl ih =>
      obtain ⟨k0, v⟩ := hd
      rw [List.cons_append, dictGet_cons, dictGet_cons, ih]

lemma dictGet_append_self (p : Policy) (pt : PackageTuple) (x : ℚ × ℕ)
    (h : dictGet p (.tup pt) = none) :
    dictGet (p ++ [(.tup pt, x)]) (.tup pt) = some x := by
  induction p with
  | nil =>
      show dictGet [(PolicyKey.tup pt, x)] (.tup pt) = some x
      rw [dictGet_cons, if_pos rfl]
  | cons hd tl ih =>
      obtain ⟨k0, v⟩ := hd
      rw [dictGet_cons] at h
      by_cases h0 : k0 = PolicyKey.tup pt
      · rw [if_pos h0] at h
        cases h
      · rw [if_neg h0] at h
        rw [List.cons_append, dictGet_cons, if_neg h0, ih h]

/-- Crediting a package tuple leaves every other key's record unchanged. -/
lemma dictGet_policyCredit_ne (p : Policy) (pt : PackageTuple) (r : ℚ)
    (k : PolicyKey) (hk : k ≠ .tup pt) :
    dictGet (policyCredit p pt r) k = dictGet p k := by
  unfold policyCredit
  cases h : dictGet p (.tup pt) with
  | none =>
      simp only [Option.isSome_none, Bool.false_eq_true, if_false]
      exact dictGet_append_ne p pt _ k hk
  | some v =>
      simp only [Option.isSome_some, if_true]
      exact dictGet_map_ne p pt (fun w => (w.1 + r, w.2 + 1)) k hk

/-- Crediting a package tuple adds `(r, 1)` to its record (a missing record
counts as `[0.0, 0]`, as `setdefault` supplies). -/
lemma dictGet_policyCredit_self (p : Policy) (pt : PackageTuple) (r : ℚ) :
    dictGet (policyCredit p pt r) (.tup pt)
      = some (((dictGet p (.tup pt)).getD (0, 0)).1 + r,
              ((dictGet p (.tup pt)).getD (0, 0)).2 + 1) := by
  unfold policyCredit
  cases h : dictGet p (.tup pt) with
  | none =>
      simp only [Option.isSome_none, Bool.false_eq_true, if_false]
      rw [dictGet_append_self p pt _ h]
      simp
  | some v =>
      simp only [Option.isSome_some, if_true]
      rw [dictGet_map_self p pt (fun w => (w.1 + r, w.2 + 1)) v h]
      simp

/-- Crediting a list of tuples not containing `pt` leaves `pt`'s record
unchanged. -/
lemma dictGet_creditAll_not_mem (l : List PackageTuple) (p : Policy)
    (pt : PackageTuple) (r : ℚ) (h : pt ∉ l) :
    dictGet (creditAll p l r) (.tup pt) = dictGet p (.tup pt) := by
  induction l generalizing p with
  | nil => rfl
  | cons hd tl ih =>
      have hne : pt ≠ hd := fun hh => h (hh ▸ List.mem_cons_self hd tl)
      have htl : pt ∉ tl := fun hh => h (List.mem_cons_of_mem hd hh)
      show dictGet (creditAll (policyCredit p hd r) tl r) (.tup pt) = _
      rw [ih (policyCredit p hd r) htl,
        dictGet_policyCredit_ne p hd r _ (by simp [hne])]

/-- Crediting a duplicate-free list containing `pt` adds exactly `(r, 1)` to
`pt`'s record. -/
lemma dictGet_creditAll_mem (l : List PackageTuple) (p : Policy)
    (pt : PackageTuple) (r : ℚ) (hnd : l.Nodup) (hmem : pt ∈ l) :
    dictGet (creditAll p l r) (.tup pt)
      = some (((dictGet p (.tup pt)).getD (0, 0)).1 + r,
              ((dictGet p (.tup pt)).getD (0, 0)).2 + 1) := by
  induction l generalizing p with
  | nil => cases hmem
  | cons hd tl ih =>
      rcases List.mem_cons.mp hmem with rfl | hmemtl
      · have htl : pt ∉ tl := (List.nodup_cons.mp hnd).1
        show dictGet (creditAll (policyCredit p pt r) tl r) (.tup pt) = _
        rw [dictGet_creditAll_not_mem tl _ pt r htl,
          dictGet_policyCredit_self p pt r]
      · have hne : pt ≠ hd := fun hh => (List.nodup_cons.mp hnd).1 (hh ▸ hmemtl)
        show dictGet (creditAll (policyCredit p hd r) tl r) (.tup pt) = _
        rw [ih (policyCredit p hd r) (List.nodup_cons.mp hnd).2 hmemtl,
          dictGet_policyCredit_ne p hd r _ (by simp [hne])]

lemma siftdown_length (fuel : ℕ) (heap : List StackItem) (startpos pos : ℕ)
    (newitem : StackItem) :
    (siftdown fuel heap startpos pos newitem).length = heap.length := by
  induction fuel generalizing heap pos with
  | zero => simp [siftdown]
  | succ fuel ih =>
      unfold siftdown
      by_cases h1 : startpos < pos
      · rw [if_pos h1]
        by_cases h2 : ltItem newitem
            (heap.getD ((pos - 1) / 2) dStackItem) = true
        · rw [if_pos h2, ih, List.length_set]
        · rw [if_neg h2, List.length_set]
      · rw [if_neg h1, List.length_set]

lemma siftupLoop_length (fuel : ℕ) (heap : List StackItem)
    (endpos startpos pos : ℕ) (newitem : StackItem) :
    (siftupLoop fuel heap endpos startpos pos newitem).length = heap.length := by
  induction fuel generalizing heap pos with
  | zero => simp [siftupLoop, siftdown_length]
  | succ fuel ih =>
      unfold siftupLoop
      by_cases h1 : 2 * pos + 1 < endpos
      · rw [if_pos h1, ih, List.length_set]
      · rw [if_neg h1, siftdown_length]

lemma heappush_length (heap : List StackItem) (item : StackItem) :
    (heappush heap item).length = heap.length + 1 := by
  unfold heappush
  rw [siftdown_length, List.length_append, List.length_cons, List.length_nil]

lemma heappushpop_length (heap : List StackItem) (item : StackItem) :
    (heappushpop heap item).length = heap.length := by
  cases heap with
  | nil => rfl
  | cons h0 tl =>
      show (if ltItem h0 item = true then
          siftupLoop (h0 :: tl).length ((h0 :: tl).set 0 item)
            (h0 :: tl).length 0 0 item
        else h0 :: tl).length = (h0 :: tl).length
      by_cases h : ltItem h0 item = true
      · rw [if_pos h, siftupLoop_length, List.length_set]
      · rw [if_neg h]

/-- When `count` is set, one loop iteration keeps the heap within `count`
entries: a full heap goes through `heappushpop` (size preserved), a non-full
one through `heappush` (size grows by one but stays within the bound). -/
lemma advStep_heap_le (c : ℕ) (st : AdviserState) (item : StackItem)
    (h : st.heap.length ≤ c) :
    ((advStep (some c) st item).heap).length ≤ c := by
  unfold advStep
  by_cases hfull : st.heap.length ≥ c
  · simp only [if_pos hfull, heappushpop_length]
    exact h
  · simp only [if_neg hfull, heappush_length]
    exact Nat.succ_le_of_lt (lt_of_not_ge hfull)

lemma foldl_advStep_heap_le (c : ℕ) (items : List StackItem)
    (st : AdviserState) (h : st.heap.length ≤ c) :
    ((items.foldl (advStep (some c)) st).heap).length ≤ c := by
  induction items generalizing st with
  | nil => exact h
  | cons hd tl ih => exact ih _ (advStep_heap_le c st hd h)

lemma sortedStacks_sorted (heap : List StackItem) :
    List.Sorted stackLe (sortedStacks heap) :=
  List.sorted_insertionSort stackLe heap

/-- Membership after the removal fold of `CutPreReleases.run`: a surviving
package version was in the context and its tuple differs from every removed
one. -/
lemma mem_removeTuple_foldl (l : List PackageVersion) (ctx : StepContext)
    (pv : PackageVersion)
    (h : pv ∈ (l.foldl (fun c x => c.removeTuple x.toTuple) ctx).dependencies) :
    pv ∈ ctx.dependencies ∧ ∀ x ∈ l, pv.toTuple ≠ x.toTuple := by
  induction l generalizing ctx with
  | nil => exact ⟨h, fun x hx => absurd hx (List.not_mem_nil x)⟩
  | cons hd tl ih =>
      have h' := ih (ctx.removeTuple hd.toTuple) h
      have hmem := h'.1
      unfold StepContext.removeTuple at hmem
      rw [List.mem_filter] at hmem
      refine ⟨hmem.1, fun x hx => ?_⟩
      rcases List.mem_cons.mp hx with rfl | hxtl
      · simpa using hmem.2
      · exact h'.2 x hxtl

/-- Sample package tuples for concrete instances. -/
def pkgA : PackageTuple := ("tensorflow", "2.0.0", "https://pypi.org/simple")

/-- Second sample package tuple. -/
def pkgB : PackageTuple := ("numpy", "1.0.0", "https://pypi.org/simple")

/-- C6: `TemporalDifference.set_reward_signal` is a no-op on the policy store
when the reward is NaN or infinite; for every finite reward `q` it adds `q`
to the reward sum and 1 to the visit count of the record of every resolved
package tuple of the state (stated off the 1024-iteration eviction points:
there the same sums are computed and then the store is shrunk). -/
theorem td_set_reward_signal_spec (cap it : ℕ) (p : Policy) (st : State)
    (r : Reward) :
    ((r.isNaN || r.isInf) = true → tdSetRewardSignal cap it p st r = p)
    ∧ (∀ q, r = .fin q → (cap = 0 ∨ it % 1024 ≠ 0) → st.resolved.Nodup →
        ∀ pt ∈ st.resolved,
          dictGet (tdSetRewardSignal cap it p st r) (.tup pt)
            = some (((dictGet p (.tup pt)).getD (0, 0)).1 + q,
                    ((dictGet p (.tup pt)).getD (0, 0)).2 + 1)) := by
  constructor
  · intro h
    cases r with
    | nan => rfl
    | inf => rfl
    | negInf => rfl
    | fin q => exact absurd h (by simp [Reward.isNaN, Reward.isInf])
  · intro q hq hev hnd pt hpt
    subst hq
    show dictGet
      (if cap ≠ 0 ∧ it % 1024 = 0 then
        policyShrink cap (creditAll p st.iterResolvedDependencies q)
      else creditAll p st.iterResolvedDependencies q) (.tup pt) = _
    have hcond : ¬ (cap ≠ 0 ∧ it % 1024 = 0) := by
      rcases hev with h | h
      · exact fun hc => hc.1 h
      · exact fun hc => h hc.2
    rw [if_neg hcond]
    exact dictGet_creditAll_mem st.resolved p pt q hnd hpt

/-- Witness for C6: a finite reward of 2 on a fresh policy records `(2, 1)`
for the resolved package. -/
theorem td_set_reward_signal_spec_witness :
    dictGet (tdSetRewardSignal 0 1 [] ⟨0, [pkgA], []⟩ (.fin 2)) (.tup pkgA)
      = some (2, 1) := by
  have h := (td_set_reward_signal_spec 0 1 [] ⟨0, [pkgA], []⟩ (.fin 2)).2
    2 rfl (Or.inl rfl) (by decide) pkgA (by decide)
  rw [h]
  norm_num [dictGet]

/-- C7: `TemporalDifference._temperature_function` returns 0.0 when no final
state has been accepted; when the incoming temperature is 0.0 and exactly one
final state has been accepted it sets the slope coefficient to
`0.5 * iteration / accepted * limit` and returns `limit`; otherwise it
returns `max((-limit / a) * iteration + limit, 0.0)` (well-defined in Python
only for `a ≠ 0`). -/
theorem td_temperature_function_spec (a t0 : ℚ) (it acc lim : ℕ) :
    (acc = 0 → tdTemperatureFunction a t0 it acc lim = (a, 0))
    ∧ (t0 = 0 → acc = 1 →
        tdTemperatureFunction a t0 it acc lim
          = ((1 / 2 : ℚ) * (it : ℚ) / (acc : ℚ) * (lim : ℚ), (lim : ℚ)))
    ∧ (acc ≠ 0 → ¬ (t0 = 0 ∧ acc = 1) → a ≠ 0 →
        tdTemperatureFunction a t0 it acc lim
          = (a, max ((-(lim : ℚ) / a) * (it : ℚ) + (lim : ℚ)) 0)) := by
  refine ⟨?_, ?_, ?_⟩
  · intro h
    unfold tdTemperatureFunction
    rw [if_pos h]
  · intro h1 h2
    unfold tdTemperatureFunction
    rw [if_neg (by omega), if_pos ⟨h1, h2⟩]
  · intro h1 h2 _
    unfold tdTemperatureFunction
    rw [if_neg h1, if_neg h2]

/-- Witness for C7 in the cooling branch: `a = 2`, `t0 = 1`, iteration 4,
one accepted final state... two accepted final states, limit 6 gives
`max((-6/2)*4 + 6, 0) = 0`. -/
theorem td_temperature_function_spec_witness :
    tdTemperatureFunction 2 1 4 2 6 = (2, 0) := by
  have h := (td_temperature_function_spec 2 1 4 2 6).2.2
    (by decide) (by simp) (by norm_num)
  rw [h]
  norm_num

/-- C9: on a non-zero child exit code the parent branch of `subprocess_run`
fills `result_dict` with `error=True` and the message selected by the
cascade — exit code 137 gives the OOM message, else an existing
liveness-probe kill file gives the CPU-time message, else the unknown-error
message — and the child's exit code is always the return value (a zero exit
code leaves the dict untouched). -/
theorem subprocess_run_parent_spec (ec : ℕ) (kf : Bool) (d : ResultDict) :
    (ec ≠ 0 → ec = 137 →
      (subprocessRunParent ec kf d).1 = ⟨true, some oomMsg, none⟩)
    ∧ (ec ≠ 0 → ec ≠ 137 → kf = true →
      (subprocessRunParent ec kf d).1 = ⟨true, some cpuTimeMsg, none⟩)
    ∧ (ec ≠ 0 → ec ≠ 137 → kf = false →
      (subprocessRunParent ec kf d).1 = ⟨true, some unknownErrMsg, none⟩)
    ∧ (ec = 0 → (subprocessRunParent ec kf d).1 = d)
    ∧ (subprocessRunParent ec kf d).2 = ec := by
  refine ⟨?_, ?_, ?_, ?_, ?_⟩
  · intro h1 h2
    unfold subprocessRunParent
    rw [if_pos h1, if_pos h2]
  · intro h1 h2 h3
    unfold subprocessRunParent
    rw [if_pos h1, if_neg h2, if_pos h3]
  · intro h1 h2 h3
    unfold subprocessRunParent
    rw [if_pos h1, if_neg h2, if_neg (by simp [h3])]
  · intro h1
    unfold subprocessRunParent
    rw [if_neg (by simp [h1])]
  · unfold subprocessRunParent
    by_cases h : ec ≠ 0
    · rw [if_pos h]
    · rw [if_neg h]

/-- Witness for C9: exit code 137 yields the OOM message even when the kill
file exists, and 137 is returned. -/
theorem subprocess_run_parent_spec_witness :
    (subprocessRunParent 137 true ⟨false, none, some 7⟩).1
      = ⟨true, some oomMsg, none⟩
    ∧ (subprocessRunParent 137 true ⟨false, none, some 7⟩).2 = 137 :=
  ⟨(subprocess_run_parent_spec 137 true ⟨false, none, some 7⟩).1
      (by decide) rfl,
   (subprocess_run_parent_spec 137 true ⟨false, none, some 7⟩).2.2.2.2⟩

/-- C10: `Adviser.compute` leaves the instance with an empty
`_computed_stacks_heap` and `_visited = 0` on every exit — the resets sit in
a `finally` block, so they also run when the dependency-graph walk raises —
and hence a second `compute` call behaves as if run on a fresh instance. -/
theorem adviser_compute_resets_state (count limit : Option ℕ)
    (walkItems : List StackItem) (walkErr : Option PyErr)
    (st0 : AdviserState) :
    (adviserCompute count limit walkItems walkErr st0).post = ⟨[], 0⟩
    ∧ ∀ count2 limit2 items2 err2,
        adviserCompute count2 limit2 items2 err2
            (adviserCompute count limit walkItems walkErr st0).post
          = adviserCompute count2 limit2 items2 err2 ⟨[], 0⟩ :=
  ⟨rfl, fun _ _ _ _ => rfl⟩

/-- C1 (code bug): the policy lookup in `TemporalDifference._do_exploitation`
keys the outer `get` by package *name* while `set_reward_signal` stores
records under full package tuples, so the lookup always misses.  With a
policy holding the record `(5, 1)` for the single unresolved dependency
`pkgA` of the beam-maximum state, exploitation still returns the random
fallback `pkgB` instead of `pkgA`, the unresolved dependency of maximum
average reward. -/
theorem td_exploitation_policy_lookup_misses :
    dictGet (tdSetRewardSignal 0 1 [] ⟨0, [pkgA], []⟩ (.fin 5)) (.tup pkgA)
      = some (5, 1)
    ∧ rewardRecords (tdSetRewardSignal 0 1 [] ⟨0, [pkgA], []⟩ (.fin 5)) pkgA
      = none
    ∧ doExploitation (tdSetRewardSignal 0 1 [] ⟨0, [pkgA], []⟩ (.fin 5))
        ⟨0, [], [(pkgA.1, [pkgA])]⟩ pkgB = pkgB
    ∧ pkgB ≠ pkgA := by decide

/-- C2 (code bug): `MCTS.set_reward_signal` with a NaN reward does not leave
the policy store untouched: the NaN branch lacks a `return`, so after setting
`_next_state = None` control falls into the terminal-state block and every
resolved package is credited with `(state.score, 1)`.  A dead-end signal on a
state with score 3 and one resolved package turns the empty policy into a
one-record store. -/
theorem mcts_nan_reward_updates_policy :
    mctsSetRewardSignal 0 1 ⟨[], some ⟨0, [], []⟩⟩ ⟨3, [pkgA], []⟩ .nan
      = ⟨[(.tup pkgA, (3, 1))], none⟩
    ∧ ([(.tup pkgA, (3, 1))] : Policy) ≠ [] := by decide

/-- C4 (code bug): the break test in `Adviser.compute` compares `_visited`
against `count` instead of `limit`: with `limit = 1` and `count = 3` the loop
consumes all three generated stacks — three iterations, exceeding the limit
of one. -/
theorem adviser_compute_limit_ignored :
    computeGo (some 3) (some 1) [((1 : ℚ), 0), (2, 1), (3, 2)] ⟨[], 0⟩
      = .ok (⟨[((1 : ℚ), 0), (2, 1), (3, 2)], 3⟩, true)
    ∧ 3 > 1 := ⟨rfl, by decide⟩

/-- C8: when the project does not allow pre-releases, no package version with
a pre-release component survives `CutPreReleases.run` in the step context —
every flagged version has its tuple removed, so no stack built from the
remaining candidates can contain it. -/
theorem cut_prereleases_removes_all (ctx : StepContext) (pv : PackageVersion)
    (h : pv ∈ (cutPreReleasesRun false ctx).dependencies) :
    pv.prerelease = false := by
  unfold cutPreReleasesRun at h
  rw [if_neg (by simp)] at h
  have h' := mem_removeTuple_foldl _ ctx pv h
  by_contra hb
  have hpre : pv.prerelease = true := by
    cases hpv : pv.prerelease
    · exact absurd hpv hb
    · rfl
  have hmemf : pv ∈ ctx.dependencies.filter
      (fun x => x.prerelease || x.build) := by
    rw [List.mem_filter]
    exact ⟨h'.1, by simp [hpre]⟩
  exact (h'.2 pv hmemf) rfl

/-- A package version without pre-release or build components. -/
def pvClean : PackageVersion := ⟨"flask", "1.0.0", "idx", false, false⟩

/-- A pre-release package version. -/
def pvPre : PackageVersion := ⟨"foo", "1.0.0rc1", "idx", true, false⟩

/-- Witness for C8: the clean version survives the cut and indeed carries no
pre-release component. -/
theorem cut_prereleases_removes_all_witness :
    pvClean ∈ (cutPreReleasesRun false ⟨[pvClean, pvPre]⟩).dependencies
    ∧ pvClean.prerelease = false :=
  ⟨by decide,
   cut_prereleases_removes_all ⟨[pvClean, pvPre]⟩ pvClean (by decide)⟩

/-- C3 counterexample: `Adviser.compute` sorts the heap with plain
`sorted(...)` — ascending — so with two stacks of scores 1 and 2 the returned
list starts with the *lowest* score; it is not ordered score-descending as
claimed. -/
theorem adviser_compute_output_not_descending :
    (adviserCompute (some 5) (some 10) [((1 : ℚ), 0), (2, 1)] none
        ⟨[], 0⟩).result = .ok [((1 : ℚ), 0), (2, 1)]
    ∧ ¬ List.Sorted (fun a b : StackItem => b.1 ≤ a.1)
        [((1 : ℚ), 0), (2, 1)] :=
  ⟨rfl, by decide⟩

/-- C3 amended: with `count` set, the internal heap holds at most `count`
stacks after every loop iteration, and every list `Adviser.compute` returns
is ordered by score *ascending* (lowest-scoring stack first), not
descending. -/
theorem adviser_compute_heap_bound_and_ascending :
    (∀ (c n : ℕ) (items : List StackItem),
        (((items.take n).foldl (advStep (some c)) ⟨[], 0⟩).heap).length ≤ c)
    ∧ (∀ count limit items err st0 out,
        (adviserCompute count limit items err st0).result = .ok out →
        List.Sorted stackLe out) := by
  constructor
  · intro c n items
    exact foldl_advStep_heap_le c _ _ (by simp)
  · intro count limit items err st0 out h
    simp only [adviserCompute] at h
    split at h
    · exact absurd h (by simp)
    · rw [Except.ok.injEq] at h
      subst h
      exact sortedStacks_sorted _
    · split at h
      · exact absurd h (by simp)
      · rw [Except.ok.injEq] at h
        subst h
        exact sortedStacks_sorted _

/-- Witness for C3 amended: a two-stack run returns the stacks in ascending
score order. -/
theorem adviser_compute_heap_bound_and_ascending_witness :
    (adviserCompute (some 5) (some 10) [((2 : ℚ), 0), (1, 1)] none
        ⟨[], 0⟩).result = .ok [((1 : ℚ), 1), (2, 0)]
    ∧ List.Sorted stackLe [((1 : ℚ), 1), (2, 0)] :=
  ⟨rfl,
   adviser_compute_heap_bound_and_ascending.2 (some 5) (some 10)
     [((2 : ℚ), 0), (1, 1)] none ⟨[], 0⟩ [((1 : ℚ), 1), (2, 0)] rfl⟩

lemma policyShrink_length_le (cap : ℕ) (p : Policy) :
    (policyShrink cap p).length ≤ cap := by
  unfold policyShrink
  rw [List.length_take]
  exact min_le_left _ _

lemma policySortDesc_sorted (p : Policy) :
    List.Sorted entryGe (policySortDesc p) :=
  List.sorted_insertionSort entryGe p

/-- C5 counterexample: with the cap set to 1, a reward signal at iteration 1
(not a multiple of 1024, so no eviction runs) leaves a two-record policy
store — the size bound does not hold after *every* call. -/
theorem policy_cap_exceeded_between_evictions :
    (tdSetRewardSignal 1 1 [] ⟨0, [pkgA, pkgB], []⟩ (.fin 1)).length = 2
    ∧ ¬ ((tdSetRewardSignal 1 1 [] ⟨0, [pkgA, pkgB], []⟩ (.fin 1)).length
          ≤ 1) := by decide

/-- C5 amended: the cap is enforced only on the calls where eviction runs —
those whose iteration is a multiple of 1024 (for TD on finite rewards, for
MCTS on the policy-crediting NaN/Inf paths) — and eviction retains exactly a
maximal prefix of the value-descending stable sort: the kept entries are
sorted descending by `(reward_sum, count)`, dominate every dropped entry,
and kept plus dropped entries are a permutation of the store. -/
theorem policy_eviction_topk (cap it : ℕ) (p : Policy) (st : State)
    (m : MCTSInner) (q : ℚ) (hcap : cap ≠ 0) (hit : it % 1024 = 0) :
    (tdSetRewardSignal cap it p st (.fin q)).length ≤ cap
    ∧ (mctsSetRewardSignal cap it m st .nan).policy.length ≤ cap
    ∧ (mctsSetRewardSignal cap it m st .inf).policy.length ≤ cap
    ∧ (mctsSetRewardSignal cap it m st .negInf).policy.length ≤ cap
    ∧ List.Sorted entryGe (policyShrink cap p)
    ∧ (∀ x ∈ policyShrink cap p, ∀ y ∈ (policySortDesc p).drop cap,
        entryGe x y)
    ∧ (policyShrink cap p ++ (policySortDesc p).drop cap).Perm p := by
  refine ⟨?_, ?_, ?_, ?_, ?_, ?_, ?_⟩
  · show (if cap ≠ 0 ∧ it % 1024 = 0 then
        policyShrink cap (creditAll p st.iterResolvedDependencies q)
      else creditAll p st.iterResolvedDependencies q).length ≤ cap
    rw [if_pos ⟨hcap, hit⟩]
    exact policyShrink_length_le _ _
  · show (if cap ≠ 0 ∧ it % 1024 = 0 then
        policyShrink cap (creditAll m.policy st.iterResolvedDependencies
          st.score)
      else creditAll m.policy st.iterResolvedDependencies st.score).length
      ≤ cap
    rw [if_pos ⟨hcap, hit⟩]
    exact policyShrink_length_le _ _
  · show (if cap ≠ 0 ∧ it % 1024 = 0 then
        policyShrink cap (creditAll m.policy st.iterResolvedDependencies
          st.score)
      else creditAll m.policy st.iterResolvedDependencies st.score).length
      ≤ cap
    rw [if_pos ⟨hcap, hit⟩]
    exact policyShrink_length_le _ _
  · show (if cap ≠ 0 ∧ it % 1024 = 0 then
        policyShrink cap (creditAll m.policy st.iterResolvedDependencies
          st.score)
      else creditAll m.policy st.iterResolvedDependencies st.score).length
      ≤ cap
    rw [if_pos ⟨hcap, hit⟩]
    exact policyShrink_length_le _ _
  · exact List.Pairwise.sublist (List.take_sublist cap _)
      (policySortDesc_sorted p)
  · have hs := policySortDesc_sorted p
    rw [← List.take_append_drop cap (policySortDesc p)] at hs
    have hcross := (List.pairwise_append.mp hs).2.2
    exact fun x hx y hy => hcross x hx y hy
  · show ((policySortDesc p).take cap ++ (policySortDesc p).drop cap).Perm p
    rw [List.take_append_drop]
    exact List.perm_insertionSort entryGe p

/-- Witness for C5 amended: at iteration 1024 with cap 1, the same two-record
update is shrunk back to one entry. -/
theorem policy_eviction_topk_witness :
    (1 : ℕ) ≠ 0 ∧ (1024 : ℕ) % 1024 = 0
    ∧ (tdSetRewardSignal 1 1024 [] ⟨0, [pkgA, pkgB], []⟩ (.fin 1)).length
        ≤ 1 :=
  ⟨by decide, by decide,
   (policy_eviction_topk 1 1024 [] ⟨0, [pkgA, pkgB], []⟩ ⟨[], none⟩ 1
      (by decide) (by decide)).1⟩
